import Mathlib

/-!
Verification development for the `AngularFirestoreCollectionGroup` facade
(`src/firestore/collection-group/collection-group.ts`) and the collaborators its
specification describes (change filter/aggregator, sorted projection maintainer,
event-kind validator, scheduling boundary with stabilization gate, one-shot fetch).

The facade's own methods (`stateChanges`, `auditTrail`, `snapshotChanges`,
`valueChanges`, `get`) are embedded directly from the shown TypeScript source.
Collaborators that live in other modules of the repository
(`validateEventsArray`, `sortedChanges`/the projection maintainer,
`keepUnstableUntilFirst`) are modelled from the specification, as marked on the
corresponding definitions.

Observables are embedded as the finite list of emissions produced for a given
finite list of upstream (decoded) emissions; runtime change-type tags are
strings, as they are in JavaScript.
-/

/-- Runtime representation of a document change type tag.  In the TypeScript
source `DocumentChangeType` is the string union `added | modified | removed`;
at runtime it is a plain string, which is what `events.indexOf(change.type)`
compares against. -/
abbrev DocumentChangeType := String

/-- A document snapshot: a stable identity plus an opaque data payload.  The
payload is modelled as a JavaScript-object-like association list of fields
(later entries override earlier ones on lookup, mirroring object spread). -/
structure DocumentSnapshot where
  id : String
  data : List (String × String)
  deriving DecidableEq, Repr

/-- A decoded change record: the uniform output of the change decoder
(spec 4.1, `DocumentChange` in the interfaces).  `oldIndex`/`newIndex` are the
query-order positions before/after the change, with `-1` meaning
"not present". -/
structure DocumentChange where
  type : DocumentChangeType
  doc : DocumentSnapshot
  oldIndex : Int
  newIndex : Int
  deriving DecidableEq, Repr

/-- A decoded delta batch: one listener callback invocation's worth of change
records, in listener order. -/
abbrev DeltaBatch := List DocumentChange

/-- The query-ordered projection of the current result set. -/
abbrev Projection := List DocumentSnapshot

/-- JavaScript `Array.prototype.indexOf`: the index of the first occurrence of
`x`, or `-1` when `x` is absent.  Used by the source as the membership test
`events.indexOf(change.type) > -1`. -/
def jsIndexOf (l : List String) (x : String) : Int :=
  match l with
  | [] => -1
  | e :: rest =>
    if e = x then 0
    else
      let r := jsIndexOf rest x
      if r = -1 then -1 else r + 1

namespace AngularFirestoreCollectionGroup

/-- Embedding of `stateChanges(events?)` (collection-group.ts:46-58): when
`events` is absent or empty the decoded stream passes through unchanged;
otherwise each batch is restricted to the requested change types
(`actions.filter(change => events.indexOf(change.type) > -1)`) and batches
that end up empty are dropped (`filter(changes => changes.length > 0)`).
The scheduling operator `keepUnstableUntilFirst` is modelled separately
(spec 4.4); it does not alter the emitted values. -/
def stateChanges (events : Option (List DocumentChangeType))
    (batches : List DeltaBatch) : List DeltaBatch :=
  match events with
  | none => batches
  | some evs =>
    if evs.length = 0 then batches
    else
      (batches.map (fun actions =>
        actions.filter (fun change => decide (jsIndexOf evs change.type > -1)))).filter
        (fun changes => decide (changes.length > 0))

/-- The rxjs `scan((current, action) => [...current, ...action], [])` operaton
used by `auditTrail`: one output emission per input emission, each carrying the
running concatenation of everything received so far (the seed itself is not
emitted). -/
def rxScanConcat (acc : DeltaBatch) : List DeltaBatch → List DeltaBatch
  | [] => []
  | b :: rest => (acc ++ b) :: rxScanConcat (acc ++ b) rest

/-- Embedding of `auditTrail(events?)` (collection-group.ts:65-67): the
filtered change stream folded through the accumulating scan. -/
def auditTrail (events : Option (List DocumentChangeType))
    (batches : List DeltaBatch) : List DeltaBatch :=
  rxScanConcat [] (stateChanges events batches)

end AngularFirestoreCollectionGroup

/-- Splice-style insertion at index `i`: everything before `i`, the new
element, everything from `i` on (JavaScript
`slice(0, i).concat([d], slice(i))`). -/
def spliceInsert (p : Projection) (i : Nat) (d : DocumentSnapshot) : Projection :=
  p.take i ++ d :: p.drop i

/-- Splice-style deletion at index `i`: everything before `i`, then everything
after `i`. -/
def spliceDelete (p : Projection) (i : Nat) : Projection :=
  p.take i ++ p.drop (i + 1)

/-- Splice-style in-place replacement at index `i`. -/
def spliceReplace (p : Projection) (i : Nat) (d : DocumentSnapshot) : Projection :=
  p.take i ++ d :: p.drop (i + 1)

/-- Modelled from the spec: one step of the Sorted Projection Maintainer
(the `combineChange` helper behind `sortedChanges` in
`../collection/changes`, a module the shown source imports but which is not
part of it).  Spec 4.3: `Removed` deletes the element at `oldIndex`; `Added`
inserts the document at `newIndex`; `Modified` with `oldIndex == newIndex`
replaces in place, otherwise deletes at `oldIndex` then inserts at `newIndex`.
Spec 7: an index referencing a position outside the current projection bounds
is an OrderingViolation, a fatal contract break, modelled as `none`. -/
def applyChange (p : Projection) (c : DocumentChange) : Option Projection :=
  if c.type = "added" then
    if 0 ≤ c.newIndex ∧ c.newIndex ≤ (p.length : Int) then
      some (spliceInsert p c.newIndex.toNat c.doc)
    else none
  else if c.type = "removed" then
    if 0 ≤ c.oldIndex ∧ c.oldIndex < (p.length : Int) then
      some (spliceDelete p c.oldIndex.toNat)
    else none
  else if c.type = "modified" then
    if c.oldIndex = c.newIndex then
      if 0 ≤ c.oldIndex ∧ c.oldIndex < (p.length : Int) then
        some (spliceReplace p c.oldIndex.toNat c.doc)
      else none
    else
      if 0 ≤ c.oldIndex ∧ c.oldIndex < (p.length : Int) then
        let p' := spliceDelete p c.oldIndex.toNat
        if 0 ≤ c.newIndex ∧ c.newIndex ≤ (p'.length : Int) then
          some (spliceInsert p' c.newIndex.toNat c.doc)
        else none
      else none
  else none

/-- Modelled from the spec: applying one delta batch to the projection,
record by record, strictly in arrival order (spec 4.3 steps 2-3). -/
def applyBatch (p : Projection) : List DocumentChange → Option Projection
  | [] => some p
  | c :: rest =>
    match applyChange p c with
    | some p' => applyBatch p' rest
    | none => none

/-- Modelled from the spec: the projection emission stream produced by
`sortedChanges` from a given starting projection.  Each batch is applied via
`applyBatch`; the resulting projection is emitted only when the requested
change kinds intersect the batch (spec 4.3 step 4). -/
def sortedChangesFrom (events : List DocumentChangeType) (p : Projection) :
    List DeltaBatch → Option (List Projection)
  | [] => some []
  | b :: rest =>
    match applyBatch p b with
    | none => none
    | some p' =>
      match sortedChangesFrom events p' rest with
      | none => none
      | some out =>
        if b.any (fun c => decide (c.type ∈ events)) then some (p' :: out)
        else some out

/-- Modelled from the spec: `sortedChanges` (imported from
`../collection/changes`) starting from the empty projection (spec 4.3
step 1). -/
def sortedChanges (events : List DocumentChangeType) (batches : List DeltaBatch) :
    Option (List Projection) :=
  sortedChangesFrom events [] batches

/-- Modelled from the spec: `validateEventsArray` (imported from
`../collection/collection`, not part of the shown source).  Spec 6/7: the
event-kind argument must be drawn from the recognized set or be absent/empty;
an argument outside the set raises a synchronous ValidationError; an absent
or empty argument defaults to the full set. -/
def validateEventsArray (events : Option (List DocumentChangeType)) :
    Except String (List DocumentChangeType) :=
  match events with
  | none => Except.ok ["added", "removed", "modified"]
  | some evs =>
    if evs.length = 0 then Except.ok ["added", "removed", "modified"]
    else if evs.all (fun e => decide (e = "added" ∨ e = "modified" ∨ e = "removed")) then
      Except.ok evs
    else Except.error "ValidationError"

namespace AngularFirestoreCollectionGroup

/-- Embedding of `snapshotChanges(events?)` (collection-group.ts:74-80):
`validateEventsArray` runs synchronously before any stream is built; only on
success is the sorted-changes pipeline subscribed, so a validation failure is
an immediate failure of the call, not a stream error. -/
def snapshotChanges (events : Option (List DocumentChangeType))
    (batches : List DeltaBatch) : Except String (Option (List Projection)) :=
  match validateEventsArray events with
  | Except.error e => Except.error e
  | Except.ok validatedEvents => Except.ok (sortedChanges validatedEvents batches)

end AngularFirestoreCollectionGroup

/-- JavaScript object property lookup on an association-list object where a
later entry overrides an earlier one, mirroring object spread
(`{...a, ...b}` gives `b`'s value for a key both carry). -/
def objGet : List (String × String) → String → Option String
  | [], _ => none
  | (k', v) :: rest, k =>
    match objGet rest k with
    | some v' => some v'
    | none => if k' = k then some v else none

namespace AngularFirestoreCollectionGroup

/-- Embedding of the per-document payload built by `valueChanges`
(collection-group.ts:95-103): with a truthy `idField` option the payload is
`{...a.data(), [options.idField]: a.id}` (spread of the data, then the id
written under the field name, overriding any data field of that name); a
JavaScript truthiness test guards the option, so the empty string behaves
like an absent option and the payload is `a.data()` unchanged. -/
def valueChangesPayload (idField : Option String) (a : DocumentSnapshot) :
    List (String × String) :=
  match idField with
  | some k => if k = "" then a.data else a.data ++ [(k, a.id)]
  | none => a.data

/-- Embedding of one `valueChanges` emission (collection-group.ts:89-107):
the snapshot's documents mapped to plain payloads. -/
def valueChanges (idField : Option String) (docs : List DocumentSnapshot) :
    List (List (String × String)) :=
  docs.map (valueChangesPayload idField)

end AngularFirestoreCollectionGroup

/-- The two scheduling contexts of spec 4.4. -/
inductive ExecutionContext where
  | outsideAngular
  | insideAngular
  deriving DecidableEq, Repr

/-- The per-subscription accumulation state owned by the streaming path:
the sorted projection and the audit log (spec 3, spec 5). -/
structure SubscriptionState where
  projection : Projection
  auditLog : List DocumentChange
  deriving DecidableEq, Repr

namespace AngularFirestoreCollectionGroup

/-- Embedding of `get(options?)` (collection-group.ts:113-117):
`from(this.query.get(options)).pipe(observeOn(insideAngular))` — the one-shot
fetch result (success or failure) is marshalled once onto the foreground
(`insideAngular`) context.  The streaming accumulation state is threaded
through to express what the source shows: `get` neither reads nor writes it. -/
def get (st : SubscriptionState) (result : Except String (List DocumentSnapshot)) :
    SubscriptionState × (ExecutionContext × Except String (List DocumentSnapshot)) :=
  (st, (ExecutionContext.insideAngular, result))

end AngularFirestoreCollectionGroup

/-- Events seen by the stabilization gate: a computed emission arriving from
the background context, or an "unstable" marker going up or down. -/
inductive GateEvent (α : Type) where
  | emit (v : α)
  | markerUp
  | markerDown
  deriving DecidableEq, Repr

/-- State of the stabilization gate: the count of outstanding unstable
markers, the single-slot buffer holding the latest undelivered emission, and
whether the gate has opened (first emission delivered). -/
structure GateState (α : Type) where
  pending : Nat
  buffer : Option α
  opened : Bool
  deriving DecidableEq, Repr

/-- The gate's initial state on a fresh subscription. -/
def gateInit {α : Type} : GateState α :=
  { pending := 0, buffer := none, opened := false }

/-- Modelled from the spec: one step of the stabilization gate
(`keepUnstableUntilFirst`, provided by the `AngularFirestore` service, not
part of the shown source).  Spec 4.4/9: a counter of pending unstable
markers plus a single-slot buffer; while the gate is closed and markers are
outstanding, each emission only overwrites the buffer; when the count
reaches zero the latest buffered emission is delivered exactly once and the
gate opens; once open, emissions pass through unmodified. -/
def gateStep {α : Type} (s : GateState α) (e : GateEvent α) :
    GateState α × List α :=
  match e with
  | GateEvent.emit v =>
    if s.opened then (s, [v])
    else if s.pending = 0 then ({ s with opened := true, buffer := none }, [v])
    else ({ s with buffer := some v }, [])
  | GateEvent.markerUp => ({ s with pending := s.pending + 1 }, [])
  | GateEvent.markerDown =>
    if s.pending - 1 = 0 ∧ s.opened = false then
      match s.buffer with
      | some v => ({ pending := 0, buffer := none, opened := true }, [v])
      | none => ({ s with pending := s.pending - 1 }, [])
    else ({ s with pending := s.pending - 1 }, [])

/-- Running the gate over a whole event trace, collecting deliveries. -/
def gateRun {α : Type} (s : GateState α) : List (GateEvent α) → GateState α × List α
  | [] => (s, [])
  | e :: rest =>
    let step1 := gateStep s e
    let rest1 := gateRun step1.1 rest
    (rest1.1, step1.2 ++ rest1.2)

/-- The latest value emitted in a trace, defaulting to `b` when the trace
emits nothing. -/
def lastEmitFrom {α : Type} (b : Option α) : List (GateEvent α) → Option α
  | [] => b
  | GateEvent.emit v :: rest => lastEmitFrom (some v) rest
  | GateEvent.markerUp :: rest => lastEmitFrom b rest
  | GateEvent.markerDown :: rest => lastEmitFrom b rest

/-- The latest value emitted in a trace, if any. -/
def lastEmit {α : Type} (tr : List (GateEvent α)) : Option α :=
  lastEmitFrom none tr

/-- Number of change records of a given type in a batch. -/
def countType (t : String) (b : List DocumentChange) : Nat :=
  (b.filter (fun c => decide (c.type = t))).length

/-- An `Added` change record for document `d` at position `i`
(`oldIndex = -1`, spec 3 invariant). -/
def addedAt (d : DocumentSnapshot) (i : Nat) : DocumentChange :=
  { type := "added", doc := d, oldIndex := -1, newIndex := (i : Int) }

/-- A `Removed` change record for document `d` at position `i`
(`newIndex = -1`, spec 3 invariant). -/
def removedAt (d : DocumentSnapshot) (i : Nat) : DocumentChange :=
  { type := "removed", doc := d, oldIndex := (i : Int), newIndex := -1 }

/-- A `Modified` change record for document `d` replacing position `i` in
place. -/
def modifiedAt (d : DocumentSnapshot) (i : Nat) : DocumentChange :=
  { type := "modified", doc := d, oldIndex := (i : Int), newIndex := (i : Int) }

/-- The batch that adds the documents `docs` one by one at increasing
indices `start, start+1, ...` (each insertion at the then-current end). -/
def increasingAdds (docs : List DocumentSnapshot) (start : Nat) : List DocumentChange :=
  match docs with
  | [] => []
  | d :: rest => addedAt d start :: increasingAdds rest (start + 1)

/-- The batch that removes the documents `docs` (occupying indices
`start, start+1, ...`) in reverse index order: highest index first. -/
def removesOf (docs : List DocumentSnapshot) (start : Nat) : List DocumentChange :=
  match docs with
  | [] => []
  | d :: rest => removesOf rest (start + 1) ++ [removedAt d start]

/-- Sample document used in concrete scenarios. -/
def D1 : DocumentSnapshot :=
  { id := "D1", data := [] }

/-- Sample document used in concrete scenarios. -/
def D2 : DocumentSnapshot :=
  { id := "D2", data := [] }

/-- `jsIndexOf` finds members at a non-negative index and reports `-1` for
non-members. -/
theorem jsIndexOf_spec (l : List String) (x : String) :
    (x ∈ l → jsIndexOf l x ≥ 0) ∧ (x ∉ l → jsIndexOf l x = -1) := by
  induction l with
  | nil => simp [jsIndexOf]
  | cons e rest ih =>
    by_cases he : e = x
    · subst he
      simp [jsIndexOf]
    · constructor
      · intro hmem
        have hx : x ∈ rest := by
          rcases List.mem_cons.mp hmem with h | h
          · exact absurd h.symm he
          · exact h
        have h0 : jsIndexOf rest x ≥ 0 := ih.1 hx
        simp only [jsIndexOf, he, if_false]
        split
        · omega
        · omega
      · intro hnmem
        have hx : x ∉ rest := fun h => hnmem (List.mem_cons_of_mem _ h)
        have h1 : jsIndexOf rest x = -1 := ih.2 hx
        simp [jsIndexOf, he, h1]

/-- `jsIndexOf` reports a non-negative index exactly when the element occurs. -/
theorem jsIndexOf_pos_iff_mem (l : List String) (x : String) :
    jsIndexOf l x > -1 ↔ x ∈ l := by
  constructor
  · intro h
    by_contra hn
    rw [(jsIndexOf_spec l x).2 hn] at h
    omega
  · intro h
    have := (jsIndexOf_spec l x).1 h
    omega

/-- Splice insertion agrees with `List.insertIdx` at in-range indices. -/
theorem spliceInsert_eq_insertIdx (p : Projection) (i : Nat) (d : DocumentSnapshot)
    (h : i ≤ p.length) : spliceInsert p i d = p.insertIdx i d := by
  induction p generalizing i with
  | nil =>
    have : i = 0 := by simpa using h
    subst this
    simp [spliceInsert]
  | cons x rest ih =>
    cases i with
    | zero => simp [spliceInsert]
    | succ i =>
      have hi : i ≤ rest.length := by simpa using h
      simp only [spliceInsert, List.take_succ_cons, List.drop_succ_cons, List.cons_append,
        List.insertIdx_succ_cons]
      rw [← ih i hi]
      rfl

/-- Splice deletion is `List.eraseIdx`. -/
theorem spliceDelete_eq_eraseIdx (p : Projection) (i : Nat) :
    spliceDelete p i = p.eraseIdx i := by
  rw [spliceDelete, List.eraseIdx_eq_take_drop_succ]

/-- Splice replacement agrees with `List.set` at in-range indices. -/
theorem spliceReplace_eq_set (p : Projection) (i : Nat) (d : DocumentSnapshot)
    (h : i < p.length) : spliceReplace p i d = p.set i d := by
  rw [spliceReplace, List.set_eq_take_cons_drop d h]

/-- Splice insertion at an in-range index grows the projection by one. -/
theorem length_spliceInsert (p : Projection) (i : Nat) (d : DocumentSnapshot)
    (h : i ≤ p.length) : (spliceInsert p i d).length = p.length + 1 := by
  simp only [spliceInsert, List.length_append, List.length_take, List.length_cons,
    List.length_drop]
  omega

/-- Splice deletion at an in-range index shrinks the projection by one. -/
theorem length_spliceDelete (p : Projection) (i : Nat)
    (h : i < p.length) : (spliceDelete p i).length + 1 = p.length := by
  simp only [spliceDelete, List.length_append, List.length_take, List.length_drop]
  omega

/-- Splice replacement preserves the projection length. -/
theorem length_spliceReplace (p : Projection) (i : Nat) (d : DocumentSnapshot)
    (h : i < p.length) : (spliceReplace p i d).length = p.length := by
  simp only [spliceReplace, List.length_append, List.length_take, List.length_cons,
    List.length_drop]
  omega

/-- Inserting at the current end appends. -/
theorem spliceInsert_at_length (p : Projection) (d : DocumentSnapshot) :
    spliceInsert p p.length d = p ++ [d] := by
  simp [spliceInsert]

/-- Deleting the last element of `p ++ [d]` recovers `p`. -/
theorem spliceDelete_at_length (p : Projection) (d : DocumentSnapshot) :
    spliceDelete (p ++ [d]) p.length = p := by
  induction p with
  | nil => rfl
  | cons x rest ih =>
    show x :: spliceDelete (rest ++ [d]) rest.length = x :: rest
    rw [ih]

/-- Characterization of the `Added` branch of `applyChange`. -/
theorem applyChange_added (p : Projection) (c : DocumentChange) (h : c.type = "added") :
    applyChange p c =
      if 0 ≤ c.newIndex ∧ c.newIndex ≤ (p.length : Int) then
        some (spliceInsert p c.newIndex.toNat c.doc)
      else none := by
  rw [applyChange, h, if_pos rfl]

/-- Characterization of the `Removed` branch of `applyChange`. -/
theorem applyChange_removed (p : Projection) (c : DocumentChange) (h : c.type = "removed") :
    applyChange p c =
      if 0 ≤ c.oldIndex ∧ c.oldIndex < (p.length : Int) then
        some (spliceDelete p c.oldIndex.toNat)
      else none := by
  rw [applyChange, h, if_neg (by decide), if_pos rfl]

/-- Characterization of the in-place `Modified` branch of `applyChange`. -/
theorem applyChange_modified_same (p : Projection) (c : DocumentChange)
    (h : c.type = "modified") (he : c.oldIndex = c.newIndex) :
    applyChange p c =
      if 0 ≤ c.oldIndex ∧ c.oldIndex < (p.length : Int) then
        some (spliceReplace p c.oldIndex.toNat c.doc)
      else none := by
  rw [applyChange, h, if_neg (by decide), if_neg (by decide), if_pos rfl, if_pos he]

/-- Characterization of the move `Modified` branch of `applyChange`. -/
theorem applyChange_modified_diff (p : Projection) (c : DocumentChange)
    (h : c.type = "modified") (he : c.oldIndex ≠ c.newIndex) :
    applyChange p c =
      if 0 ≤ c.oldIndex ∧ c.oldIndex < (p.length : Int) then
        if 0 ≤ c.newIndex ∧ c.newIndex ≤ ((spliceDelete p c.oldIndex.toNat).length : Int) then
          some (spliceInsert (spliceDelete p c.oldIndex.toNat) c.newIndex.toNat c.doc)
        else none
      else none := by
  rw [applyChange, h, if_neg (by decide), if_neg (by decide), if_pos rfl, if_neg he]

/-- `applyChange` rejects any change type outside the decoded set. -/
theorem applyChange_unknown (p : Projection) (c : DocumentChange)
    (ha : c.type ≠ "added") (hr : c.type ≠ "removed") (hm : c.type ≠ "modified") :
    applyChange p c = none := by
  rw [applyChange, if_neg ha, if_neg hr, if_neg hm]

/-- One projection step changes the length by one for `Added`, by minus one
for `Removed`, and not at all for `Modified`. -/
theorem applyChange_length (p p' : Projection) (c : DocumentChange)
    (h : applyChange p c = some p') :
    p'.length + (if c.type = "removed" then 1 else 0)
      = p.length + (if c.type = "added" then 1 else 0) := by
  by_cases ha : c.type = "added"
  · rw [applyChange_added p c ha] at h
    rw [ha, if_neg (by decide), if_pos rfl]
    split at h
    · rename_i hg
      have hle : c.newIndex.toNat ≤ p.length := by omega
      have hlen := length_spliceInsert p c.newIndex.toNat c.doc hle
      simp only [Option.some.injEq] at h
      subst h
      omega
    · cases h
  · by_cases hr : c.type = "removed"
    · rw [applyChange_removed p c hr] at h
      rw [hr, if_pos rfl, if_neg (by decide)]
      split at h
      · rename_i hg
        have hlt : c.oldIndex.toNat < p.length := by omega
        have hlen := length_spliceDelete p c.oldIndex.toNat hlt
        simp only [Option.some.injEq] at h
        subst h
        omega
      · cases h
    · rw [if_neg hr, if_neg ha]
      by_cases hm : c.type = "modified"
      · by_cases he : c.oldIndex = c.newIndex
        · rw [applyChange_modified_same p c hm he] at h
          split at h
          · rename_i hg
            have hlt : c.oldIndex.toNat < p.length := by omega
            have hlen := length_spliceReplace p c.oldIndex.toNat c.doc hlt
            simp only [Option.some.injEq] at h
            subst h
            omega
          · cases h
        · rw [applyChange_modified_diff p c hm he] at h
          split at h
          · rename_i hg
            have hlt : c.oldIndex.toNat < p.length := by omega
            have hdel := length_spliceDelete p c.oldIndex.toNat hlt
            split at h
            · rename_i hg2
              have hle : c.newIndex.toNat ≤ (spliceDelete p c.oldIndex.toNat).length := by
                omega
              have hins :=
                length_spliceInsert (spliceDelete p c.oldIndex.toNat) c.newIndex.toNat c.doc hle
              simp only [Option.some.injEq] at h
              subst h
              omega
            · cases h
          · cases h
      · rw [applyChange_unknown p c ha hr hm] at h
        cases h

/-- `countType` over a cons cell. -/
theorem countType_cons (t : String) (c : DocumentChange) (rest : List DocumentChange) :
    countType t (c :: rest) = (if c.type = t then 1 else 0) + countType t rest := by
  by_cases h : c.type = t
  · simp [countType, List.filter_cons, h]
    omega
  · simp [countType, List.filter_cons, h]

/-- Batch application is accounted for by the add and remove counts: each
successful batch changes the length by (adds minus removes). -/
theorem applyBatch_length (b : List DocumentChange) :
    ∀ (p p' : Projection), applyBatch p b = some p' →
      p'.length + countType "removed" b = p.length + countType "added" b := by
  induction b with
  | nil =>
    intro p p' h
    simp only [applyBatch, Option.some.injEq] at h
    subst h
    rfl
  | cons c rest ih =>
    intro p p' h
    simp only [applyBatch] at h
    rcases hc : applyChange p c with _ | q
    · rw [hc] at h
      cases h
    · rw [hc] at h
      have h1 := applyChange_length p q c hc
      have h2 := ih q p' h
      rw [countType_cons, countType_cons]
      omega

/-- Batch application distributes over batch concatenation. -/
theorem applyBatch_append (b1 b2 : List DocumentChange) :
    ∀ p : Projection, applyBatch p (b1 ++ b2)
      = (applyBatch p b1).bind (fun q => applyBatch q b2) := by
  induction b1 with
  | nil => intro p; rfl
  | cons c rest ih =>
    intro p
    simp only [List.cons_append, applyBatch]
    rcases hc : applyChange p c with _ | q
    · rfl
    · exact ih q

/-- With a non-empty event set, `stateChanges` is the per-batch type filter
followed by the non-empty-batch filter. -/
theorem stateChanges_some (evs : List DocumentChangeType) (batches : List DeltaBatch)
    (hne : evs ≠ []) :
    AngularFirestoreCollectionGroup.stateChanges (some evs) batches =
      (batches.map (fun actions =>
        actions.filter (fun change => decide (jsIndexOf evs change.type > -1)))).filter
        (fun changes => decide (changes.length > 0)) := by
  rw [AngularFirestoreCollectionGroup.stateChanges]
  rw [if_neg (by simpa using hne)]

/-- The accumulating scan produces one output per input. -/
theorem rxScanConcat_length (bs : List DeltaBatch) :
    ∀ acc, (AngularFirestoreCollectionGroup.rxScanConcat acc bs).length = bs.length := by
  induction bs with
  | nil => intro acc; rfl
  | cons b rest ih =>
    intro acc
    simp only [AngularFirestoreCollectionGroup.rxScanConcat, List.length_cons, ih]

/-- The `n`-th output of the accumulating scan is the seed followed by the
concatenation of the first `n + 1` inputs. -/
theorem rxScanConcat_getElem (bs : List DeltaBatch) :
    ∀ (acc : DeltaBatch) (n : Nat), n < bs.length →
      (AngularFirestoreCollectionGroup.rxScanConcat acc bs)[n]?
        = some (acc ++ (bs.take (n + 1)).flatten) := by
  induction bs with
  | nil => intro acc n h; simp at h
  | cons b rest ih =>
    intro acc n h
    cases n with
    | zero =>
      simp [AngularFirestoreCollectionGroup.rxScanConcat]
    | succ n =>
      have hn : n < rest.length := by simpa using h
      simp only [AngularFirestoreCollectionGroup.rxScanConcat, List.getElem?_cons_succ]
      rw [ih (acc ++ b) n hn]
      simp [List.append_assoc]

/-- Once the stabilization gate has opened it stays open. -/
theorem gateStep_opened_of_opened {α : Type} (s : GateState α) (e : GateEvent α)
    (h : s.opened = true) : (gateStep s e).1.opened = true := by
  cases e with
  | emit v => simp [gateStep, h]
  | markerUp => simp [gateStep, h]
  | markerDown => simp [gateStep, h]

/-- Once the stabilization gate has opened it stays open for the rest of the
trace. -/
theorem gateRun_opened_of_opened {α : Type} (tr : List (GateEvent α)) :
    ∀ s : GateState α, s.opened = true → (gateRun s tr).1.opened = true := by
  induction tr with
  | nil => intro s h; exact h
  | cons e rest ih =>
    intro s h
    exact ih _ (gateStep_opened_of_opened s e h)

/-- While the stabilization gate is still closed at the end of a trace,
nothing was ever delivered and the single-slot buffer holds exactly the
latest emitted value (if any). -/
theorem gateRun_closed {α : Type} (tr : List (GateEvent α)) :
    ∀ s : GateState α, (gateRun s tr).1.opened = false →
      s.opened = false ∧ (gateRun s tr).2 = []
        ∧ (gateRun s tr).1.buffer = lastEmitFrom s.buffer tr := by
  induction tr with
  | nil =>
    intro s h
    exact ⟨h, rfl, rfl⟩
  | cons e rest ih =>
    intro s h
    have hrun : gateRun s (e :: rest)
        = ((gateRun (gateStep s e).1 rest).1,
           (gateStep s e).2 ++ (gateRun (gateStep s e).1 rest).2) := rfl
    rw [hrun] at h ⊢
    have hclosed1 : (gateStep s e).1.opened = false := by
      by_contra hop
      have hop' : (gateStep s e).1.opened = true := by
        revert hop
        cases (gateStep s e).1.opened <;> simp
      have := gateRun_opened_of_opened rest (gateStep s e).1 hop'
      rw [h] at this
      cases this
    obtain ⟨h1, h2, h3⟩ := ih (gateStep s e).1 h
    cases e with
    | emit v =>
      by_cases hop : s.opened = true
      · have : (gateStep s (GateEvent.emit v)).1.opened = true := by simp [gateStep, hop]
        rw [hclosed1] at this
        cases this
      · have hopf : s.opened = false := by revert hop; cases s.opened <;> simp
        by_cases hp : s.pending = 0
        · have : (gateStep s (GateEvent.emit v)).1.opened = true := by
            simp [gateStep, hopf, hp]
          rw [hclosed1] at this
          cases this
        · have hstep : gateStep s (GateEvent.emit v)
              = ({ s with buffer := some v }, []) := by
            simp [gateStep, hopf, hp]
          rw [hstep] at h2 h3 ⊢
          refine ⟨hopf, by simpa using h2, ?_⟩
          rw [h3]
          rfl
    | markerUp =>
      have hstep : gateStep s GateEvent.markerUp
          = ({ s with pending := s.pending + 1 }, []) := rfl
      rw [hstep] at hclosed1 h2 h3 ⊢
      refine ⟨by simpa using hclosed1, by simpa using h2, ?_⟩
      rw [h3]
      rfl
    | markerDown =>
      by_cases hc : s.pending - 1 = 0 ∧ s.opened = false
      · rcases hb : s.buffer with _ | v
        · have hstep : gateStep s GateEvent.markerDown
              = ({ s with pending := s.pending - 1 }, []) := by
            simp [gateStep, hc.1, hc.2, hb]
          rw [hstep] at hclosed1 h2 h3 ⊢
          refine ⟨hc.2, by simpa using h2, ?_⟩
          rw [h3, hb]
          rfl
        · have hstep : gateStep s GateEvent.markerDown
              = ({ pending := 0, buffer := none, opened := true }, [v]) := by
            simp [gateStep, hc.1, hc.2, hb]
          rw [hstep] at hclosed1
          cases hclosed1
      · have hstep : gateStep s GateEvent.markerDown
            = ({ s with pending := s.pending - 1 }, []) := by
          rw [gateStep, if_neg hc]
        rw [hstep] at hclosed1 h2 h3 ⊢
        refine ⟨by simpa using hclosed1, by simpa using h2, ?_⟩
        rw [h3]
        rfl

/-- Looking up the key just written by an append-spread gives the written
value (the later entry overrides any earlier field of that name). -/
theorem objGet_append_last (l : List (String × String)) (k v : String) :
    objGet (l ++ [(k, v)]) k = some v := by
  induction l with
  | nil => simp [objGet]
  | cons kv rest ih =>
    obtain ⟨k', v'⟩ := kv
    show (match objGet (rest ++ [(k, v)]) k with
      | some v2 => some v2
      | none => if k' = k then some v' else none) = some v
    rw [ih]

/-- Looking up any other key after an append-spread reads the original
object. -/
theorem objGet_append_other (l : List (String × String)) (k v f : String)
    (h : f ≠ k) : objGet (l ++ [(k, v)]) f = objGet l f := by
  induction l with
  | nil =>
    simp only [List.nil_append, objGet]
    rw [if_neg (fun hk => h hk.symm)]
  | cons kv rest ih =>
    obtain ⟨k', v'⟩ := kv
    show (match objGet (rest ++ [(k, v)]) f with
      | some v2 => some v2
      | none => if k' = f then some v' else none)
      = (match objGet rest f with
      | some v2 => some v2
      | none => if k' = f then some v' else none)
    rw [ih]

/-- Adding documents one by one at the current end extends the projection by
exactly those documents, in order. -/
theorem applyBatch_increasingAdds (docs : List DocumentSnapshot) :
    ∀ p : Projection, applyBatch p (increasingAdds docs p.length) = some (p ++ docs) := by
  induction docs with
  | nil => intro p; simp [increasingAdds, applyBatch]
  | cons d rest ih =>
    intro p
    have hstep : applyChange p (addedAt d p.length) = some (p ++ [d]) := by
      rw [applyChange_added p (addedAt d p.length) rfl]
      rw [if_pos (by constructor <;> simp [addedAt])]
      show some (spliceInsert p ((p.length : Int)).toNat d) = some (p ++ [d])
      rw [Int.toNat_natCast, spliceInsert_at_length]
    simp only [increasingAdds, applyBatch, hstep]
    have := ih (p ++ [d])
    simp only [List.length_append, List.length_cons, List.length_nil] at this
    simpa using this

/-- Removing documents in reverse index order peels the projection back to
its prefix. -/
theorem applyBatch_removesOf (docs : List DocumentSnapshot) :
    ∀ p : Projection, applyBatch (p ++ docs) (removesOf docs p.length) = some p := by
  induction docs with
  | nil => intro p; simp [removesOf, applyBatch]
  | cons d rest ih =>
    intro p
    have hlast : applyBatch (p ++ [d]) [removedAt d p.length] = some p := by
      have hstep : applyChange (p ++ [d]) (removedAt d p.length) = some p := by
        rw [applyChange_removed (p ++ [d]) (removedAt d p.length) rfl]
        rw [if_pos (by constructor <;> simp [removedAt])]
        show some (spliceDelete (p ++ [d]) ((p.length : Int)).toNat) = some p
        rw [Int.toNat_natCast, spliceDelete_at_length]
      simp [applyBatch, hstep]
    have hmid := ih (p ++ [d])
    simp only [List.length_append, List.length_cons, List.length_nil] at hmid
    simp only [removesOf, applyBatch_append]
    have hrw : p ++ d :: rest = (p ++ [d]) ++ rest := by simp
    rw [hrw]
    rw [show p.length + 1 = (p ++ [d]).length by simp] at hmid ⊢
    rw [hmid]
    simpa using hlast

open AngularFirestoreCollectionGroup

/-- Applying the full-set membership filter used by the default event set
keeps every decoded change. -/
theorem filter_full_set_id (b : DeltaBatch)
    (h : ∀ c ∈ b, c.type = "added" ∨ c.type = "modified" ∨ c.type = "removed") :
    b.filter (fun change =>
      decide (jsIndexOf ["added", "modified", "removed"] change.type > -1)) = b := by
  apply List.filter_eq_self.mpr
  intro c hc
  apply decide_eq_true
  apply (jsIndexOf_pos_iff_mem _ _).mpr
  rcases h c hc with h1 | h1 | h1 <;> simp [h1]

/-- Mapping the full-set membership filter over decoded batches is the
identity. -/
theorem map_filter_full_set_id (batches : List DeltaBatch)
    (h : ∀ b ∈ batches, ∀ c ∈ b,
      c.type = "added" ∨ c.type = "modified" ∨ c.type = "removed") :
    batches.map (fun actions => actions.filter (fun change =>
      decide (jsIndexOf ["added", "modified", "removed"] change.type > -1))) = batches := by
  induction batches with
  | nil => rfl
  | cons b rest ih =>
    simp only [List.map_cons]
    rw [filter_full_set_id b (h b (List.mem_cons_self b rest)),
      ih (fun b2 hb2 => h b2 (List.mem_cons_of_mem b hb2))]

/-- The latest emitted value after appending one event to a trace. -/
theorem lastEmitFrom_append {α : Type} (tr : List (GateEvent α)) :
    ∀ (b : Option α) (e : GateEvent α),
      lastEmitFrom b (tr ++ [e])
        = match e with
          | GateEvent.emit v => some v
          | _ => lastEmitFrom b tr := by
  induction tr with
  | nil =>
    intro b e
    cases e <;> rfl
  | cons e2 rest ih =>
    intro b e
    cases e2 with
    | emit v => exact ih (some v) e
    | markerUp => exact ih b e
    | markerDown => exact ih b e

/-- Claim C1: for every batch of change records applied in arrival order to
the projection maintained by snapshotChanges/sortedChanges, starting from
the empty sequence: `Removed` deletes the element at `oldIndex`, `Added`
inserts the document at `newIndex`, `Modified` with `oldIndex = newIndex`
replaces in place, `Modified` with differing indices deletes at `oldIndex`
then inserts at `newIndex`; and the batch adding D1 at 0 then D2 at 1 maps
the empty projection to `[D1, D2]`. -/
theorem C1_projection_step_semantics :
    (∀ (p : Projection) (c : DocumentChange), c.type = "removed" →
        0 ≤ c.oldIndex → c.oldIndex < (p.length : Int) →
        applyChange p c = some (p.eraseIdx c.oldIndex.toNat)) ∧
    (∀ (p : Projection) (c : DocumentChange), c.type = "added" →
        0 ≤ c.newIndex → c.newIndex ≤ (p.length : Int) →
        applyChange p c = some (p.insertIdx c.newIndex.toNat c.doc)) ∧
    (∀ (p : Projection) (c : DocumentChange), c.type = "modified" →
        c.oldIndex = c.newIndex → 0 ≤ c.oldIndex → c.oldIndex < (p.length : Int) →
        applyChange p c = some (p.set c.oldIndex.toNat c.doc)) ∧
    (∀ (p : Projection) (c : DocumentChange), c.type = "modified" →
        c.oldIndex ≠ c.newIndex → 0 ≤ c.oldIndex → c.oldIndex < (p.length : Int) →
        0 ≤ c.newIndex → c.newIndex ≤ ((p.eraseIdx c.oldIndex.toNat).length : Int) →
        applyChange p c
          = some ((p.eraseIdx c.oldIndex.toNat).insertIdx c.newIndex.toNat c.doc)) ∧
    applyBatch [] [addedAt D1 0, addedAt D2 1] = some [D1, D2] := by
  refine ⟨?_, ?_, ?_, ?_, by decide⟩
  · intro p c ht h0 hlt
    rw [applyChange_removed p c ht, if_pos ⟨h0, hlt⟩, spliceDelete_eq_eraseIdx]
  · intro p c ht h0 hle
    rw [applyChange_added p c ht, if_pos ⟨h0, hle⟩,
      spliceInsert_eq_insertIdx p c.newIndex.toNat c.doc (by omega)]
  · intro p c ht he h0 hlt
    rw [applyChange_modified_same p c ht he, if_pos ⟨h0, hlt⟩,
      spliceReplace_eq_set p c.oldIndex.toNat c.doc (by omega)]
  · intro p c ht he h0 hlt h0' hle
    rw [applyChange_modified_diff p c ht he, if_pos ⟨h0, hlt⟩]
    rw [spliceDelete_eq_eraseIdx]
    rw [if_pos ⟨h0', hle⟩,
      spliceInsert_eq_insertIdx (p.eraseIdx c.oldIndex.toNat) c.newIndex.toNat c.doc (by omega)]

/-- Witness for C1 at a concrete removal on the projection `[D1, D2]`. -/
theorem C1_witness :
    (removedAt D1 0).type = "removed" ∧ 0 ≤ (removedAt D1 0).oldIndex ∧
      (removedAt D1 0).oldIndex < ((([D1, D2] : Projection)).length : Int) ∧
      applyChange [D1, D2] (removedAt D1 0)
        = some (([D1, D2] : Projection).eraseIdx (removedAt D1 0).oldIndex.toNat) :=
  ⟨rfl, by decide, by decide,
    C1_projection_step_semantics.1 [D1, D2] (removedAt D1 0) rfl (by decide) (by decide)⟩

/-- Claim C6: per the spec 4.3 algorithm from the empty projection, the
resulting length equals the number of `Added` records minus the number of
`Removed` records, re-applying the same sequence from empty is
deterministic, and adding documents at increasing indices then removing
them in reverse index order returns the projection to empty. -/
theorem C6_projection_algebra :
    (∀ (b : List DocumentChange) (p : Projection), applyBatch [] b = some p →
        p.length + countType "removed" b = countType "added" b) ∧
    (∀ (b : List DocumentChange) (r1 r2 : Option Projection),
        applyBatch [] b = r1 → applyBatch [] b = r2 → r1 = r2) ∧
    (∀ docs : List DocumentSnapshot,
        applyBatch [] (increasingAdds docs 0 ++ removesOf docs 0) = some []) := by
  refine ⟨?_, ?_, ?_⟩
  · intro b p h
    have := applyBatch_length b [] p h
    simpa using this
  · intro b r1 r2 h1 h2
    rw [← h1, ← h2]
  · intro docs
    rw [applyBatch_append]
    have h1 := applyBatch_increasingAdds docs []
    simp only [List.length_nil, List.nil_append] at h1
    rw [h1]
    have h2 := applyBatch_removesOf docs []
    simp only [List.length_nil, List.nil_append] at h2
    simpa using h2

/-- Witness for C6 at the concrete batch adding D1 at index 0. -/
theorem C6_witness :
    applyBatch [] [addedAt D1 0] = some [D1] ∧
      ([D1] : Projection).length + countType "removed" [addedAt D1 0]
        = countType "added" [addedAt D1 0] :=
  ⟨by decide, C6_projection_algebra.1 [addedAt D1 0] [D1] (by decide)⟩

/-- Claim C2: snapshotChanges rejects an event-kind argument containing a
value outside the recognized set with a synchronous validation error
(independently of anything the listener would deliver), while an absent or
empty argument succeeds with the full default set and raises no validation
error. -/
theorem C2_snapshotChanges_validation :
    (∀ (evs : List DocumentChangeType) (batches : List DeltaBatch)
        (e : DocumentChangeType), e ∈ evs →
        e ≠ "added" → e ≠ "modified" → e ≠ "removed" →
        snapshotChanges (some evs) batches = Except.error "ValidationError") ∧
    (∀ batches : List DeltaBatch,
        snapshotChanges none batches
            = Except.ok (sortedChanges ["added", "removed", "modified"] batches) ∧
        snapshotChanges (some []) batches
            = Except.ok (sortedChanges ["added", "removed", "modified"] batches)) := by
  constructor
  · intro evs batches e hmem ha hm hr
    have hval : validateEventsArray (some evs) = Except.error "ValidationError" := by
      rw [validateEventsArray]
      rw [if_neg (by simpa using List.ne_nil_of_mem hmem)]
      rw [if_neg ?_]
      intro hall
      rcases of_decide_eq_true (List.all_eq_true.mp hall e hmem) with h1 | h1 | h1
      · exact ha h1
      · exact hm h1
      · exact hr h1
    rw [snapshotChanges, hval]
  · intro batches
    exact ⟨rfl, rfl⟩

/-- Witness for C2 at the concrete invalid argument `["bogus"]`. -/
theorem C2_witness :
    ("bogus" : DocumentChangeType) ∈ (["bogus"] : List DocumentChangeType) ∧
    ("bogus" : DocumentChangeType) ≠ "added" ∧
    ("bogus" : DocumentChangeType) ≠ "modified" ∧
    ("bogus" : DocumentChangeType) ≠ "removed" ∧
    snapshotChanges (some ["bogus"]) [] = Except.error "ValidationError" :=
  ⟨by decide, by decide, by decide, by decide,
    C2_snapshotChanges_validation.1 ["bogus"] [] "bogus" (by decide) (by decide) (by decide)
      (by decide)⟩

/-- Claim C3: with a non-empty requested event set, every batch emitted by
stateChanges contains only changes of requested types, and no emitted batch
is empty. -/
theorem C3_stateChanges_filtered_batches (evs : List DocumentChangeType)
    (batches : List DeltaBatch) (hne : evs ≠ []) :
    ∀ b ∈ stateChanges (some evs) batches, (∀ c ∈ b, c.type ∈ evs) ∧ b ≠ [] := by
  intro b hb
  rw [stateChanges_some evs batches hne] at hb
  have hb2 := List.mem_filter.mp hb
  obtain ⟨a, _, hfa⟩ := List.mem_map.mp hb2.1
  constructor
  · intro c hc
    rw [← hfa] at hc
    have hmem := List.of_mem_filter hc
    exact (jsIndexOf_pos_iff_mem evs c.type).mp (of_decide_eq_true hmem)
  · intro hbe
    rw [hbe] at hb2
    simp at hb2

/-- Witness for C3 at a concrete one-batch stream. -/
theorem C3_witness :
    (["added"] : List DocumentChangeType) ≠ [] ∧
    [addedAt D1 0] ∈ stateChanges (some ["added"]) [[addedAt D1 0]] ∧
    ((∀ c ∈ [addedAt D1 0], c.type ∈ (["added"] : List DocumentChangeType)) ∧
      [addedAt D1 0] ≠ ([] : DeltaBatch)) :=
  ⟨by decide, by decide,
    C3_stateChanges_filtered_batches ["added"] [[addedAt D1 0]] (by decide)
      [addedAt D1 0] (by decide)⟩

/-- Claim C4 counterexample: on the one-batch stream whose only batch is
empty, the omitted-argument form re-emits the empty batch unchanged while
the full-set form drops it, so the two argument forms are not
observationally equivalent for every sequence of decoded batches. -/
theorem C4_counterexample :
    stateChanges none [[]] ≠ stateChanges (some ["added", "modified", "removed"]) [[]] := by
  decide

/-- Claim C4 (amended): for every sequence of decoded batches in which every
batch is non-empty, stateChanges with an omitted or empty event-kind set
emits exactly the same sequence of batches as stateChanges with the full
set. -/
theorem C4_amended_default_equals_full_set (batches : List DeltaBatch)
    (h : ∀ b ∈ batches, b ≠ [] ∧ ∀ c ∈ b,
        c.type = "added" ∨ c.type = "modified" ∨ c.type = "removed") :
    stateChanges (some ["added", "modified", "removed"]) batches
        = stateChanges none batches ∧
    stateChanges (some []) batches = stateChanges none batches := by
  constructor
  · rw [stateChanges_some _ _ (by decide)]
    rw [map_filter_full_set_id batches (fun b hb => (h b hb).2)]
    show batches.filter (fun changes => decide (changes.length > 0)) = batches
    apply List.filter_eq_self.mpr
    intro b hb
    apply decide_eq_true
    have hne := (h b hb).1
    cases b with
    | nil => exact absurd rfl hne
    | cons c rest => simp
  · rfl

/-- Witness for C4 (amended) at a concrete non-empty batch. -/
theorem C4_witness :
    (∀ b ∈ [[addedAt D1 0]], b ≠ ([] : DeltaBatch) ∧ ∀ c ∈ b,
        c.type = "added" ∨ c.type = "modified" ∨ c.type = "removed") ∧
    stateChanges (some ["added", "modified", "removed"]) [[addedAt D1 0]]
        = stateChanges none [[addedAt D1 0]] :=
  ⟨by decide, (C4_amended_default_equals_full_set [[addedAt D1 0]] (by decide)).1⟩

/-- Claim C5: the n-th emission of auditTrail is the concatenation, in
arrival order, of the first n + 1 filtered batches (the full accumulated
sequence), and each emission is a prefix of the next one. -/
theorem C5_auditTrail_accumulates (events : Option (List DocumentChangeType))
    (batches : List DeltaBatch) (n : Nat)
    (hn : n < (stateChanges events batches).length) :
    (auditTrail events batches)[n]?
        = some (((stateChanges events batches).take (n + 1)).flatten) ∧
    ∀ em1 em2, (auditTrail events batches)[n]? = some em1 →
      (auditTrail events batches)[n + 1]? = some em2 → List.IsPrefix em1 em2 := by
  have hget := rxScanConcat_getElem (stateChanges events batches) [] n hn
  have hget' : (auditTrail events batches)[n]?
      = some (((stateChanges events batches).take (n + 1)).flatten) := by
    rw [auditTrail, hget]
    simp
  refine ⟨hget', ?_⟩
  intro em1 em2 h1 h2
  have hlen : n + 1 < (stateChanges events batches).length := by
    by_contra hge
    have hnone : (auditTrail events batches)[n + 1]? = none := by
      apply List.getElem?_eq_none
      rw [auditTrail, rxScanConcat_length]
      omega
    rw [hnone] at h2
    cases h2
  have hget2 : (auditTrail events batches)[n + 1]?
      = some (((stateChanges events batches).take (n + 2)).flatten) := by
    rw [auditTrail, rxScanConcat_getElem (stateChanges events batches) [] (n + 1) hlen]
    simp
  rw [hget'] at h1
  rw [hget2] at h2
  injection h1 with h1
  injection h2 with h2
  subst h1
  subst h2
  refine ⟨(((stateChanges events batches)[n + 1]?).toList).flatten, ?_⟩
  rw [← List.flatten_append, ← List.take_succ]

/-- Witness for C5 at a concrete two-batch stream. -/
theorem C5_witness :
    0 < (stateChanges none [[addedAt D1 0], [addedAt D2 1]]).length ∧
    (auditTrail none [[addedAt D1 0], [addedAt D2 1]])[0]?
        = some (((stateChanges none [[addedAt D1 0], [addedAt D2 1]]).take 1).flatten) :=
  ⟨by decide,
    (C5_auditTrail_accumulates none [[addedAt D1 0], [addedAt D2 1]] 0 (by decide)).1⟩

/-- Claim C7 counterexample: a call passing the idField option with the
empty-string field name falls into the JavaScript falsy branch, so the
payload is the plain data and does not carry the document id under the
requested name. -/
theorem C7_counterexample :
    objGet (valueChangesPayload (some "")
        { id := "x", data := [("a", "1")] }) ""
      ≠ some "x" := by
  decide

/-- Claim C7 (amended): for every idField option with a non-empty field
name, the emitted payload is the document data with the idField name mapped
to the document id, overriding any data field of that name, while every
other field reads from the data unchanged; with no idField option, or with
the empty-string field name (falsy in JavaScript), the payload is the
document data unmodified; and valueChanges emits exactly these payloads
per document. -/
theorem C7_amended_valueChanges_idField :
    (∀ (k : String) (a : DocumentSnapshot), k ≠ "" →
        objGet (valueChangesPayload (some k) a) k = some a.id ∧
        ∀ f, f ≠ k → objGet (valueChangesPayload (some k) a) f = objGet a.data f) ∧
    (∀ a : DocumentSnapshot, valueChangesPayload none a = a.data) ∧
    (∀ a : DocumentSnapshot, valueChangesPayload (some "") a = a.data) ∧
    (∀ (idField : Option String) (docs : List DocumentSnapshot) (a : DocumentSnapshot),
        a ∈ docs → valueChangesPayload idField a ∈ valueChanges idField docs) := by
  refine ⟨?_, fun a => rfl, fun a => by rw [valueChangesPayload, if_pos rfl], ?_⟩
  · intro k a hk
    have hpay : valueChangesPayload (some k) a = a.data ++ [(k, a.id)] := by
      rw [valueChangesPayload, if_neg hk]
    rw [hpay]
    exact ⟨objGet_append_last a.data k a.id,
      fun f hf => objGet_append_other a.data k a.id f hf⟩
  · intro idField docs a ha
    exact List.mem_map_of_mem (valueChangesPayload idField) ha

/-- Witness for C7 (amended): the id overrides a colliding data field. -/
theorem C7_witness :
    ("id" : String) ≠ "" ∧
    objGet (valueChangesPayload (some "id")
        { id := "x", data := [("id", "old")] }) "id" = some "x" :=
  ⟨by decide,
    (C7_amended_valueChanges_idField.1 "id" { id := "x", data := [("id", "old")] }
      (by decide)).1⟩

/-- Claim C9: get is a one-shot fetch that delivers its result (or failure)
on the foreground context and leaves the streaming accumulation state
unchanged. -/
theorem C9_get_one_shot_frame (st : SubscriptionState)
    (r : Except String (List DocumentSnapshot)) :
    AngularFirestoreCollectionGroup.get st r
      = (st, (ExecutionContext.insideAngular, r)) := rfl

/-- Claim C8: for every fresh subscription (every gate trace from the
initial state): while the gate has not yet opened nothing has been
delivered and the buffer holds the latest computed emission; any delivery
out of the closed state is a single value, equal to the latest emission,
and happens only at a point where no unstable marker is outstanding; once
the gate is open every emission passes through unmodified. -/
theorem C8_stabilization_gate {α : Type} (tr : List (GateEvent α)) :
    ((gateRun gateInit tr).1.opened = false →
        (gateRun gateInit tr).2 = []
          ∧ (gateRun gateInit tr).1.buffer = lastEmit tr) ∧
    ((gateRun gateInit tr).1.opened = false → ∀ e : GateEvent α,
        (gateStep (gateRun gateInit tr).1 e).2 = []
          ∨ ∃ v, (gateStep (gateRun gateInit tr).1 e).2 = [v]
              ∧ (gateStep (gateRun gateInit tr).1 e).1.pending = 0
              ∧ (gateStep (gateRun gateInit tr).1 e).1.opened = true
              ∧ some v = lastEmit (tr ++ [e])) ∧
    ((gateRun gateInit tr).1.opened = true → ∀ v : α,
        gateStep (gateRun gateInit tr).1 (GateEvent.emit v)
          = ((gateRun gateInit tr).1, [v])) := by
  refine ⟨?_, ?_, ?_⟩
  · intro h
    obtain ⟨_, h2, h3⟩ := gateRun_closed tr gateInit h
    exact ⟨h2, h3⟩
  · intro h e
    obtain ⟨_, _, h3⟩ := gateRun_closed tr gateInit h
    have hlast : (gateRun gateInit tr).1.buffer = lastEmit tr := h3
    cases e with
    | emit v =>
      by_cases hp : (gateRun gateInit tr).1.pending = 0
      · right
        refine ⟨v, ?_, ?_, ?_, ?_⟩
        · simp [gateStep, h, hp]
        · simp [gateStep, h, hp]
        · simp [gateStep, h, hp]
        · rw [lastEmit, lastEmitFrom_append]
      · left
        simp [gateStep, h, hp]
    | markerUp =>
      left
      rfl
    | markerDown =>
      by_cases hc : (gateRun gateInit tr).1.pending - 1 = 0
      · rcases hb : (gateRun gateInit tr).1.buffer with _ | v
        · left
          simp [gateStep, hc, h, hb]
        · right
          refine ⟨v, ?_, ?_, ?_, ?_⟩
          · simp [gateStep, hc, h, hb]
          · simp [gateStep, hc, h, hb]
          · simp [gateStep, hc, h, hb]
          · rw [lastEmit, lastEmitFrom_append]
            show some v = lastEmitFrom none tr
            rw [← lastEmit, ← hlast, hb]
      · left
        rw [gateStep, if_neg (fun hand => hc hand.1)]
  · intro h v
    simp [gateStep, h]

/-- Witness for C8: after one marker goes up and two emissions arrive, the
gate is still closed, nothing was delivered, and the buffer holds the
latest emission. -/
theorem C8_witness :
    (gateRun gateInit
        [GateEvent.markerUp, GateEvent.emit (1 : Nat), GateEvent.emit 2]).1.opened = false ∧
    ((gateRun gateInit
        [GateEvent.markerUp, GateEvent.emit (1 : Nat), GateEvent.emit 2]).2 = []
      ∧ (gateRun gateInit
          [GateEvent.markerUp, GateEvent.emit (1 : Nat), GateEvent.emit 2]).1.buffer
        = lastEmit [GateEvent.markerUp, GateEvent.emit (1 : Nat), GateEvent.emit 2]) :=
  ⟨by decide,
    (C8_stabilization_gate
      [GateEvent.markerUp, GateEvent.emit (1 : Nat), GateEvent.emit 2]).1 (by decide)⟩

/-- Claim C10: stateChanges (and hence auditTrail) does not validate its
event-kind argument: with an unrecognized kind the call does not error, it
returns a stream that never emits because every decoded change is filtered
out — in contrast to snapshotChanges, which rejects such an argument with a
validation error. -/
theorem C10_stateChanges_no_validation :
    (∀ batches : List DeltaBatch,
        (∀ b ∈ batches, ∀ c ∈ b,
            c.type = "added" ∨ c.type = "modified" ∨ c.type = "removed") →
        stateChanges (some ["bogus-kind"]) batches = []
          ∧ auditTrail (some ["bogus-kind"]) batches = []) ∧
    (∀ batches : List DeltaBatch,
        snapshotChanges (some ["bogus-kind"]) batches
          = Except.error "ValidationError") := by
  constructor
  · intro batches h
    have hstate : stateChanges (some ["bogus-kind"]) batches = [] := by
      rw [stateChanges_some _ _ (by decide)]
      apply List.filter_eq_nil_iff.mpr
      intro b hb
      obtain ⟨a, ha, hfa⟩ := List.mem_map.mp hb
      have hfilter : a.filter
          (fun change => decide (jsIndexOf ["bogus-kind"] change.type > -1)) = [] := by
        apply List.filter_eq_nil_iff.mpr
        intro c hc
        simp only [decide_eq_true_eq]
        have hnm : c.type ∉ (["bogus-kind"] : List String) := by
          rcases h a ha c hc with h1 | h1 | h1 <;> simp [h1]
        rw [(jsIndexOf_spec ["bogus-kind"] c.type).2 hnm]
        omega
      rw [← hfa, hfilter]
      simp
    refine ⟨hstate, ?_⟩
    rw [auditTrail, hstate]
    rfl
  · intro batches
    rfl

/-- Witness for C10 at a concrete decoded stream. -/
theorem C10_witness :
    (∀ b ∈ [[addedAt D1 0]], ∀ c ∈ b,
        c.type = "added" ∨ c.type = "modified" ∨ c.type = "removed") ∧
    (stateChanges (some ["bogus-kind"]) [[addedAt D1 0]] = []
      ∧ auditTrail (some ["bogus-kind"]) [[addedAt D1 0]] = []) :=
  ⟨by decide, C10_stateChanges_no_validation.1 [[addedAt D1 0]] (by decide)⟩
